import Mathlib

/-!
Shallow embedding of the `lookhash` repository (0xhnl/lookhash) for
specification checking.  The functions below are direct translations of
the Python source in `lookhash.py` (hash extraction, file chunking,
single and bulk lookup driver).  File and network I/O is made explicit:
input files become lists of lines, HTTP responses become an explicit
`Resp` value, and everything printed to the console / written to the
output file becomes a list of `Emission`s.
-/

namespace LookHash

/-! ### Python string primitives (ASCII fragment) -/

/-- The whitespace characters stripped by Python `str.strip()` and matched
by `\s` in the `re` module (ASCII fragment, which is all the pipeline's
inputs use). -/
def isPySpace (c : Char) : Bool :=
  c == ' ' || c == '\t' || c == '\n' || c == '\r' || c == '\x0b' || c == '\x0c'

/-- Python `str.strip()` on a character list: drop leading and trailing
whitespace. -/
def pyStripChars (s : List Char) : List Char :=
  ((s.dropWhile isPySpace).reverse.dropWhile isPySpace).reverse

/-- Python `str.strip()`. -/
def pyStrip (s : String) : String :=
  String.mk (pyStripChars s.data)

/-- Python `str.split("\n")` on a character list: always returns at least
one (possibly empty) segment, like Python. -/
def splitNl : List Char → List (List Char)
  | [] => [[]]
  | c :: rest =>
    if c = '\n' then [] :: splitNl rest
    else
      match splitNl rest with
      | [] => [[c]]
      | g :: gs => (c :: g) :: gs

/-- `response.text.strip().split("\n")`, as used by both lookup routines. -/
def bodyLines (s : String) : List String :=
  (splitNl (pyStripChars s.data)).map String.mk

/-! ### Hash extractor (`extract_nt_hashes`, lookhash.py lines 14-48) -/

/-- The character class `[a-f0-9]` of the source's hash regexes
(lowercase hex only: the source compiles its patterns without
`re.IGNORECASE`). -/
def isHexLowerChar (c : Char) : Bool :=
  c.isDigit || (decide ('a' ≤ c) && decide (c ≤ 'f'))

/-- The character class `[^\s:]` used for the user / domain part of the
dump-line regex. -/
def isUserChar (c : Char) : Bool :=
  !(isPySpace c) && c != ':'

/-- Match of the dump-line pattern
`(?:[^\s:]+\\)?[^\s:]+:\d+:[a-f0-9]{32}:([a-f0-9]{32}):::`
anchored at the start of `s`, returning capture group 1 (the NT hash).
Since every quantified class (`[^\s:]`, `\d`, `[a-f0-9]`) excludes `:`,
the regex engine's greedy backtracking is deterministic here: each run
must extend to the next `:` exactly, so a maximal-run matcher is
equivalent.  The optional `(?:[^\s:]+\\)?` prefix matches inside the
same `[^\s:]` run and does not change matchability or group 1. -/
def matchDumpAt (s : List Char) : Option (List Char) :=
  match s.takeWhile isUserChar, s.dropWhile isUserChar with
  | [], _ => none
  | _ :: _, ':' :: rest2 =>
    match rest2.takeWhile Char.isDigit, rest2.dropWhile Char.isDigit with
    | [], _ => none
    | _ :: _, ':' :: rest3 =>
      let lm := rest3.take 32
      if lm.length = 32 && lm.all isHexLowerChar then
        match rest3.drop 32 with
        | ':' :: rest4 =>
          let nt := rest4.take 32
          if nt.length = 32 && nt.all isHexLowerChar then
            match rest4.drop 32 with
            | ':' :: ':' :: ':' :: _ => some nt
            | _ => none
          else none
        | _ => none
      else none
    | _, _ => none
  | _, _ => none

/-- `re.search` of the dump-line pattern: leftmost position at which the
pattern matches, returning capture group 1. -/
def searchDump : List Char → Option (List Char)
  | [] => none
  | c :: rest =>
    match matchDumpAt (c :: rest) with
    | some nt => some nt
    | none => searchDump rest

/-- The extraction decision on an already-stripped line `l`
(lookhash.py lines 24-40): skip it if empty, try the dump-format regex
and take its NT-hash group, otherwise accept the line itself when it
matches `^[a-f0-9]{32}$`, otherwise drop the line. -/
def strippedHash (l : List Char) : Option String :=
  if l = [] then none
  else
    match searchDump l with
    | some nt => some (String.mk nt)
    | none =>
      if l.length = 32 && l.all isHexLowerChar then some (String.mk l)
      else none

/-- The per-line body of the extraction loop (lookhash.py lines 22-40):
`line = line.strip()` followed by the match/accept/drop decision.
Returns the canonical hash this line contributes, if any. -/
def lineHash (line : String) : Option String :=
  strippedHash (pyStripChars line.data)

/-- `nt_hashes.add h`: Python set insertion, modelled as an
insertion-ordered duplicate-free list. -/
def addHash (acc : List String) (h : String) : List String :=
  if h ∈ acc then acc else acc ++ [h]

/-- One iteration of the extraction loop on the accumulated set. -/
def extractLine (acc : List String) (line : String) : List String :=
  match lineHash line with
  | some h => addHash acc h
  | none => acc

/-- The set of canonical hashes accumulated by `extract_nt_hashes` over
the input lines. -/
def extractHashes (lines : List String) : List String :=
  lines.foldl extractLine []

/-- `extract_nt_hashes` (lookhash.py lines 14-48): the sequence of hashes
written to the output file — the deduplicated hash set in sorted order
(`for nt_hash in sorted(nt_hashes)`). -/
def extract_nt_hashes (lines : List String) : List String :=
  (extractHashes lines).insertionSort (· ≤ ·)

/-! ### Result sink and HTTP responses

Every line the program prints or writes is modelled as an `Emission`:
`out` for response/outcome lines (printed to stdout and, when an output
file is configured, written there) and `err` for warning/error messages
(printed to stderr and likewise mirrored to the output file).  The
outcome of one HTTP request is a `Resp`: either a status code with a
response body, or a `requests.exceptions.RequestException` transport
failure. -/

inductive Emission
  | out (line : String)
  | err (line : String)
  deriving DecidableEq, Repr

inductive Resp
  | ok (status : Nat) (body : String)
  | netErr (msg : String)
  deriving DecidableEq, Repr

/-! ### Single lookup (`single_lookup`, lookhash.py lines 80-112) -/

/-- `single_lookup`: the emissions produced for one hash given the
response `r` to the GET request.  204 emits `hash:[not found]`; 200
emits every line of the stripped response body; any other status emits
an error message; a transport failure emits a transport-error message. -/
def single_lookup (hash_value : String) : Resp → List Emission
  | .ok status body =>
    if status = 204 then [.out (hash_value ++ ":[not found]")]
    else if status = 200 then (bodyLines body).map .out
    else [.err ("Error: Unexpected status code " ++ toString status)]
  | .netErr e => [.err ("Error during single lookup: " ++ e)]

/-! ### Batch chunking (`bulk_lookup` loop, lookhash.py lines 122-137;
`split_file`, lookhash.py lines 57-78 and hash-split.py) -/

/-- The chunk sequence produced by the slicing loop, for a `Nat` chunk
size: `bulk_lookup` walks `hashes[i:i+300]` in steps of 300, and
`split_file` writes `lines[i*n:(i+1)*n]` for `i in range((total+n-1)//n)`;
for positive sizes both produce exactly these chunks. -/
def chunkList (hashes : List α) (size : Nat) : List (List α) :=
  (List.range ((hashes.length + size - 1) / size)).map
    fun i => (hashes.drop (i * size)).take size

/-- Python slice bound normalisation for `l[a:b]` (negative indices count
from the end, out-of-range bounds clamp). -/
def pySliceBound (n : Nat) (a : Int) : Nat :=
  if a < 0 then (a + n).toNat else min a.toNat n

/-- Python `l[a:b]`. -/
def pySlice (l : List α) (a b : Int) : List α :=
  (l.drop (pySliceBound l.length a)).take (pySliceBound l.length b - pySliceBound l.length a)

/-- `split_file` (lookhash.py lines 57-78): the chunk contents written to
the split files, with Python's full integer semantics for
`lines_per_file`.  The source performs no validation of
`lines_per_file`: `//` by zero raises `ZeroDivisionError`, and a
negative value flows through floor division, `range`, and slicing. -/
def split_file (lines : List α) (lines_per_file : Int) : Except String (List (List α)) :=
  if lines_per_file = 0 then Except.error "ZeroDivisionError"
  else
    Except.ok ((List.range (Int.fdiv ((lines.length : Int) + lines_per_file - 1) lines_per_file).toNat).map
      fun (i : Nat) => pySlice lines ((i : Int) * lines_per_file) (((i : Int) + 1) * lines_per_file))

/-! ### Bulk lookup retry driver (`bulk_lookup`, lookhash.py lines 114-169)

The `while i < len(hashes)` loop is modelled as a state
(`batch cursor i`, `emissions so far`) transformed once per HTTP
response.  The sequence of responses the remote service returns across
attempts is an explicit list consumed in order; `time.sleep` calls do
not affect the state and are elided. -/

structure DriverState where
  i : Nat
  output : List Emission
  deriving DecidableEq, Repr

/-- The warning written on HTTP 429 (lookhash.py line 140). -/
def rateLimitMsg : String :=
  "[!] Rate limit hit (429). Waiting 15 minutes before retrying..."

/-- The error written on an unexpected status (lookhash.py line 149). -/
def statusErrMsg (status : Nat) : String :=
  "Error: Unexpected status code " ++ toString status

/-- The error written on a transport failure (lookhash.py line 160). -/
def transportErrMsg (e : String) : String :=
  "Error during bulk lookup: " ++ e

/-- One iteration of the `bulk_lookup` loop body on response `r`:
status 200 emits every line of the stripped body and advances `i` by
300; status 429 emits the rate-limit warning and leaves `i` unchanged;
any other status, or a transport failure, emits an error message and
advances `i` by 300. -/
def bulkStep (s : DriverState) : Resp → DriverState
  | .ok status body =>
    if status = 200 then ⟨s.i + 300, s.output ++ (bodyLines body).map .out⟩
    else if status = 429 then ⟨s.i, s.output ++ [.err rateLimitMsg]⟩
    else ⟨s.i + 300, s.output ++ [.err (statusErrMsg status)]⟩
  | .netErr e => ⟨s.i + 300, s.output ++ [.err (transportErrMsg e)]⟩

/-- `bulk_lookup`'s `while i < len(hashes)` loop over a script of
responses: each loop iteration consumes the next response; the loop
stops when `i` reaches the hash count (`n`) or the script is
exhausted. -/
def bulkRun (n : Nat) (s : DriverState) : List Resp → DriverState
  | [] => s
  | r :: rs => if s.i < n then bulkRun n (bulkStep s r) rs else s

/-- The batch submitted at cursor `i`: `hashes[i:i+300]`. -/
def currentBatch (hashes : List String) (i : Nat) : List String :=
  (hashes.drop i).take 300

/-! ### Chunking lemmas -/

theorem chunkList_nil (size : Nat) : chunkList ([] : List α) size = [] := by
  unfold chunkList
  rcases Nat.eq_zero_or_pos size with h | h
  · subst h; simp
  · rw [List.length_nil, Nat.zero_add, Nat.div_eq_of_lt (by omega)]; rfl

theorem chunkList_cons (l : List α) (size : Nat) (hs : 0 < size) (hl : l ≠ []) :
    chunkList l size = l.take size :: chunkList (l.drop size) size := by
  have hn : 1 ≤ l.length := List.length_pos.mpr hl
  have h1 : l.length + size - 1 = (l.length - 1) + size := by omega
  have h2 : ((l.length - 1) + size) / size = (l.length - 1) / size + 1 :=
    Nat.add_div_right _ hs
  have h3 : (l.drop size).length + size - 1 = (l.length - size) + size - 1 := by
    rw [List.length_drop]
  have h4 : ((l.length - size) + size - 1) / size = (l.length - 1) / size := by
    rcases le_or_lt size l.length with h | h
    · congr 1; omega
    · rw [show l.length - size = 0 by omega, Nat.zero_add,
        Nat.div_eq_of_lt (by omega), Nat.div_eq_of_lt (by omega)]
  unfold chunkList
  rw [h1, h2, h3, h4, List.range_succ_eq_map, List.map_cons, List.map_map]
  congr 1
  · simp
  · apply List.map_congr_left
    intro i _
    simp only [Function.comp_apply]
    rw [List.drop_drop, Nat.succ_mul, Nat.add_comm size (i * size)]

theorem chunkList_flatten (size : Nat) (hs : 0 < size) (l : List α) :
    (chunkList l size).flatten = l := by
  suffices H : ∀ n (l : List α), l.length ≤ n → (chunkList l size).flatten = l from
    H l.length l le_rfl
  intro n
  induction n with
  | zero =>
    intro l hl
    have hnil : l = [] := by
      cases l with
      | nil => rfl
      | cons a t => simp at hl
    subst hnil
    rw [chunkList_nil]; rfl
  | succ n ih =>
    intro l hl
    rcases eq_or_ne l [] with rfl | hne
    · rw [chunkList_nil]; rfl
    · rw [chunkList_cons l size hs hne, List.flatten_cons,
        ih (l.drop size) (by rw [List.length_drop]; have := List.length_pos.mpr hne; omega),
        List.take_append_drop]

theorem chunkList_dropLast_length (size : Nat) (hs : 0 < size) (l : List α) :
    ∀ c ∈ (chunkList l size).dropLast, c.length = size := by
  suffices H : ∀ n (l : List α), l.length ≤ n →
      ∀ c ∈ (chunkList l size).dropLast, c.length = size from H l.length l le_rfl
  intro n
  induction n with
  | zero =>
    intro l hl c hc
    have hnil : l = [] := by
      cases l with
      | nil => rfl
      | cons a t => simp at hl
    subst hnil
    rw [chunkList_nil] at hc
    simp at hc
  | succ n ih =>
    intro l hl c hc
    rcases eq_or_ne l [] with rfl | hne
    · rw [chunkList_nil] at hc; simp at hc
    · rw [chunkList_cons l size hs hne] at hc
      rcases hrec : chunkList (l.drop size) size with _ | ⟨r, rs⟩
      · rw [hrec] at hc; simp at hc
      · rw [hrec, List.dropLast_cons₂, List.mem_cons] at hc
        rcases hc with hc | hc
        · have hd : l.drop size ≠ [] := by
            intro h0
            rw [h0, chunkList_nil] at hrec
            exact (List.cons_ne_nil _ _) hrec.symm
          have hlt : size < l.length := by
            have hp := List.length_pos.mpr hd
            rw [List.length_drop] at hp
            omega
          subst hc
          rw [List.length_take]
          omega
        · have hlen : (l.drop size).length ≤ n := by
            rw [List.length_drop]
            have := List.length_pos.mpr hne
            omega
          exact ih (l.drop size) hlen c (by rw [hrec]; exact hc)

/-- For a positive chunk size, `split_file` succeeds and produces exactly
the chunk sequence `chunkList`: the `Nat` chunker and the full-Python
`split_file` model agree on the sizes the program actually uses
(300 in `bulk_lookup`, 500 in `split_file`). -/
theorem split_file_pos (l : List α) (size : Nat) (hs : 0 < size) :
    split_file l (size : Int) = Except.ok (chunkList l size) := by
  unfold split_file chunkList
  rw [if_neg (by exact_mod_cast Nat.pos_iff_ne_zero.mp hs)]
  congr 1
  have hcast : ((l.length : Int) + (size : Int) - 1) = ((l.length + size - 1 : Nat) : Int) := by
    omega
  have hcount : (Int.fdiv ((l.length : Int) + (size : Int) - 1) (size : Int)).toNat
      = (l.length + size - 1) / size := by
    rw [hcast, Int.fdiv_eq_ediv _ (by positivity), ← Int.ofNat_ediv, Int.toNat_ofNat]
  rw [hcount]
  apply List.map_congr_left
  intro i _
  unfold pySlice pySliceBound
  rw [if_neg (Int.not_lt.mpr (by positivity)), if_neg (Int.not_lt.mpr (by positivity))]
  have hi : ((i : Int) * (size : Int)).toNat = i * size := by
    rw [show ((i : Int) * (size : Int)) = ((i * size : Nat) : Int) by push_cast; ring,
      Int.toNat_ofNat]
  have hi2 : (((i : Int) + 1) * (size : Int)).toNat = (i + 1) * size := by
    rw [show (((i : Int) + 1) * (size : Int)) = (((i + 1) * size : Nat) : Int) by push_cast; ring,
      Int.toNat_ofNat]
  rw [hi, hi2]
  rcases le_or_lt (i * size) l.length with h | h
  · rw [min_eq_left h]
    rcases le_or_lt ((i + 1) * size) l.length with h2 | h2
    · rw [min_eq_left h2, show (i + 1) * size - i * size = size by rw [Nat.add_mul]; omega]
    · rw [min_eq_right (by omega)]
      rw [Nat.add_mul, one_mul] at h2
      rw [List.take_of_length_le (by rw [List.length_drop]),
        List.take_of_length_le (by rw [List.length_drop]; omega)]
  · have hle : l.length ≤ i * size := by omega
    have hle2 : l.length ≤ (i + 1) * size :=
      le_trans hle (Nat.mul_le_mul (Nat.le_succ i) (le_refl size))
    rw [min_eq_right hle, min_eq_right hle2, Nat.sub_self, List.take_zero,
      List.drop_eq_nil_of_le hle, List.take_nil]

/-- C4: for every finite hash sequence and positive chunk size, chunking
is a lossless ordered partition: concatenating the chunks in order
reproduces the sequence, every chunk but possibly the last has exactly
the configured size, the number of chunks is `⌈length / size⌉`, and the
empty sequence yields zero chunks. -/
theorem chunking_is_lossless_partition (l : List String) (size : Nat) (hs : 0 < size) :
    (chunkList l size).flatten = l ∧
    (∀ c ∈ (chunkList l size).dropLast, c.length = size) ∧
    (chunkList l size).length = l.length ⌈/⌉ size ∧
    chunkList ([] : List String) size = [] := by
  refine ⟨chunkList_flatten size hs l, chunkList_dropLast_length size hs l, ?_,
    chunkList_nil size⟩
  rw [Nat.ceilDiv_eq_add_pred_div]
  simp [chunkList]

/-- Witness for C4 at the concrete sequence `["a", "b", "c"]` with
chunk size 2. -/
theorem chunking_is_lossless_partition_witness :
    0 < 2 ∧
    ((chunkList ["a", "b", "c"] 2).flatten = ["a", "b", "c"] ∧
      (∀ c ∈ (chunkList ["a", "b", "c"] 2).dropLast, c.length = 2) ∧
      (chunkList ["a", "b", "c"] 2).length = (["a", "b", "c"] : List String).length ⌈/⌉ 2 ∧
      chunkList ([] : List String) 2 = []) :=
  ⟨by decide, chunking_is_lossless_partition ["a", "b", "c"] 2 (by decide)⟩

/-- C6 counterexample: with chunk size `-1 ≤ 0`, `split_file` does not
fail at all — it returns successfully (here producing one empty chunk
and silently losing the input line), so no `InvalidConfiguration`
failure occurs. -/
theorem split_file_nonpos_counterexample :
    split_file ["a"] (-1 : Int) = Except.ok [[]] ∧ (-1 : Int) ≤ 0 := by
  constructor
  · rfl
  · decide

/-- C6 amended: `split_file` performs no validation of the chunk size.
A chunk size of exactly 0 fails with Python's `ZeroDivisionError` (an
unrelated error, not `InvalidConfiguration`), and a negative chunk size
does not fail at all: the operation returns normally. -/
theorem split_file_no_size_validation (l : List String) (size : Int) (h0 : size ≤ 0) :
    (size = 0 → split_file l size = Except.error "ZeroDivisionError") ∧
    (size < 0 → ∃ cs, split_file l size = Except.ok cs) := by
  constructor
  · intro h
    subst h
    rfl
  · intro h
    unfold split_file
    rw [if_neg (show ¬size = 0 by omega)]
    exact ⟨_, rfl⟩

/-- Witness for the amended C6 at the concrete input `["a"]` with chunk
size 0. -/
theorem split_file_no_size_validation_witness :
    (0 : Int) ≤ 0 ∧
    (((0 : Int) = 0 → split_file ["a"] (0 : Int) = Except.error "ZeroDivisionError") ∧
      ((0 : Int) < 0 → ∃ cs, split_file ["a"] (0 : Int) = Except.ok cs)) :=
  ⟨by decide, split_file_no_size_validation ["a"] 0 (by decide)⟩

/-! ### Extractor lemmas: set semantics, shape of extracted hashes,
invariance under duplicates and whitespace padding -/

theorem mem_addHash {x h : String} {acc : List String} :
    x ∈ addHash acc h ↔ x ∈ acc ∨ x = h := by
  unfold addHash
  split
  · next hmem =>
    constructor
    · exact Or.inl
    · rintro (hx | rfl)
      · exact hx
      · exact hmem
  · simp

theorem mem_addHash_self (acc : List String) (h : String) : h ∈ addHash acc h := by
  rw [mem_addHash]
  exact Or.inr rfl

theorem addHash_of_mem {acc : List String} {h : String} (hm : h ∈ acc) :
    addHash acc h = acc := by
  unfold addHash
  rw [if_pos hm]

theorem nodup_addHash {h : String} {acc : List String} (ha : acc.Nodup) :
    (addHash acc h).Nodup := by
  unfold addHash
  split
  · exact ha
  · next hmem => simp [List.nodup_append, ha, hmem]

theorem mem_extractLine {x : String} {acc : List String} {a : String} :
    x ∈ extractLine acc a ↔ x ∈ acc ∨ lineHash a = some x := by
  unfold extractLine
  cases h : lineHash a with
  | none => simp
  | some y =>
    rw [mem_addHash]
    simp [eq_comm]

theorem mem_extractHashes_aux (lines : List String) :
    ∀ (acc : List String) (x : String),
      x ∈ lines.foldl extractLine acc ↔ x ∈ acc ∨ ∃ line ∈ lines, lineHash line = some x := by
  induction lines with
  | nil => intro acc x; simp
  | cons a rest ih =>
    intro acc x
    rw [List.foldl_cons, ih, mem_extractLine]
    constructor
    · rintro ((hx | hx) | ⟨line, hline, hsome⟩)
      · exact Or.inl hx
      · exact Or.inr ⟨a, List.mem_cons_self a rest, hx⟩
      · exact Or.inr ⟨line, List.mem_cons_of_mem a hline, hsome⟩
    · rintro (hx | ⟨line, hline, hsome⟩)
      · exact Or.inl (Or.inl hx)
      · rcases List.mem_cons.mp hline with rfl | hline2
        · exact Or.inl (Or.inr hsome)
        · exact Or.inr ⟨line, hline2, hsome⟩

theorem mem_extractHashes {x : String} {lines : List String} :
    x ∈ extractHashes lines ↔ ∃ line ∈ lines, lineHash line = some x := by
  unfold extractHashes
  rw [mem_extractHashes_aux]
  simp

theorem nodup_extractHashes (lines : List String) : (extractHashes lines).Nodup := by
  unfold extractHashes
  suffices H : ∀ acc : List String, acc.Nodup → (lines.foldl extractLine acc).Nodup from
    H [] (by simp)
  induction lines with
  | nil => intro acc ha; exact ha
  | cons a rest ih =>
    intro acc ha
    rw [List.foldl_cons]
    apply ih
    unfold extractLine
    cases lineHash a with
    | none => exact ha
    | some y => exact nodup_addHash ha

theorem matchDumpAt_shape {s nt : List Char} (h : matchDumpAt s = some nt) :
    nt.length = 32 ∧ nt.all isHexLowerChar := by
  unfold matchDumpAt at h
  repeat' split at h
  all_goals simp_all
  all_goals (obtain ⟨h1, ⟨hlen, hall⟩, rfl⟩ := h; rw [List.length_take]; omega)

theorem searchDump_shape : ∀ {s nt : List Char}, searchDump s = some nt →
    nt.length = 32 ∧ nt.all isHexLowerChar
  | [], nt, h => by simp [searchDump] at h
  | c :: rest, nt, h => by
    simp only [searchDump] at h
    cases hm : matchDumpAt (c :: rest) with
    | some y =>
      rw [hm] at h
      cases h
      exact matchDumpAt_shape hm
    | none =>
      rw [hm] at h
      exact searchDump_shape h

theorem strippedHash_shape {l : List Char} {h : String} (hh : strippedHash l = some h) :
    h.data.length = 32 ∧ h.data.all isHexLowerChar := by
  unfold strippedHash at hh
  split at hh
  · exact absurd hh (by simp)
  · cases hs : searchDump l with
    | some nt =>
      rw [hs] at hh
      cases hh
      exact searchDump_shape hs
    | none =>
      rw [hs] at hh
      split at hh
      · simp_all
      · split at hh
        · next hcond =>
          cases hh
          simpa using hcond
        · exact absurd hh (by simp)

theorem dropWhile_append_all {p : Char → Bool} (pad rest : List Char) (hp : pad.all p) :
    (pad ++ rest).dropWhile p = rest.dropWhile p := by
  induction pad with
  | nil => rfl
  | cons a t ih =>
    simp only [List.all_cons, Bool.and_eq_true] at hp
    rw [List.cons_append, List.dropWhile_cons_of_pos hp.1, ih hp.2]

theorem dropWhile_append_of_ne_nil {p : Char → Bool} (x rest : List Char)
    (hx : x.dropWhile p ≠ []) :
    (x ++ rest).dropWhile p = x.dropWhile p ++ rest := by
  induction x with
  | nil => simp at hx
  | cons a t ih =>
    by_cases hpa : p a
    · rw [List.dropWhile_cons_of_pos hpa] at hx
      rw [List.cons_append, List.dropWhile_cons_of_pos hpa, List.dropWhile_cons_of_pos hpa,
        ih hx]
    · rw [List.cons_append, List.dropWhile_cons_of_neg (by simpa using hpa),
        List.dropWhile_cons_of_neg (by simpa using hpa)]
      rfl

theorem pyStripChars_pad (x pad1 pad2 : List Char)
    (h1 : pad1.all isPySpace) (h2 : pad2.all isPySpace) :
    pyStripChars (pad1 ++ x ++ pad2) = pyStripChars x := by
  unfold pyStripChars
  rw [List.append_assoc, dropWhile_append_all pad1 _ h1]
  rcases eq_or_ne (x.dropWhile isPySpace) [] with hdx | hdx
  · have hx : ∀ a ∈ x, isPySpace a := List.dropWhile_eq_nil_iff.mp hdx
    have hxp : (x ++ pad2).dropWhile isPySpace = [] := by
      rw [List.dropWhile_eq_nil_iff]
      intro a ha
      rcases List.mem_append.mp ha with h | h
      · exact hx a h
      · exact List.all_eq_true.mp h2 a h
    rw [hxp, hdx]
  · rw [dropWhile_append_of_ne_nil x pad2 hdx, List.reverse_append,
      dropWhile_append_all pad2.reverse _ (by simpa using h2)]

theorem lineHash_pad (x pad1 pad2 : List Char)
    (h1 : pad1.all isPySpace) (h2 : pad2.all isPySpace) :
    lineHash (String.mk (pad1 ++ x ++ pad2)) = lineHash (String.mk x) :=
  congrArg strippedHash (pyStripChars_pad x pad1 pad2 h1 h2)

theorem extractLine_congr {acc : List String} {x y : String} (h : lineHash x = lineHash y) :
    extractLine acc x = extractLine acc y := by
  unfold extractLine
  rw [h]

theorem extractLine_dup {acc : List String} {x y : String} (h : lineHash y = lineHash x) :
    extractLine (extractLine acc x) y = extractLine acc x := by
  unfold extractLine
  rw [h]
  cases hx : lineHash x with
  | none => rfl
  | some a => exact addHash_of_mem (mem_addHash_self acc a)

theorem extractHashes_dup (pre post : List String) (x y : String)
    (h : lineHash y = lineHash x) :
    extractHashes (pre ++ x :: y :: post) = extractHashes (pre ++ x :: post) := by
  unfold extractHashes
  rw [List.foldl_append, List.foldl_append, List.foldl_cons, List.foldl_cons, List.foldl_cons,
    extractLine_dup h]

theorem extractHashes_congr_line (pre post : List String) (x y : String)
    (h : lineHash x = lineHash y) :
    extractHashes (pre ++ x :: post) = extractHashes (pre ++ y :: post) := by
  unfold extractHashes
  rw [List.foldl_append, List.foldl_append, List.foldl_cons, List.foldl_cons,
    extractLine_congr h]

/-- C9: the dump-format line
`CORP\jdoe:1001:aad3b435b51404eeaad3b435b51404ee:5835048ce94ad0564e29a924a03510ef:::`
yields exactly the NT hash `5835048ce94ad0564e29a924a03510ef` (the
second 32-hex field); the LM hash field is not extracted. -/
theorem dump_line_extracts_nt_hash :
    extract_nt_hashes
        ["CORP\\jdoe:1001:aad3b435b51404eeaad3b435b51404ee:5835048ce94ad0564e29a924a03510ef:::"]
      = ["5835048ce94ad0564e29a924a03510ef"] ∧
    "aad3b435b51404eeaad3b435b51404ee" ∉ extract_nt_hashes
        ["CORP\\jdoe:1001:aad3b435b51404eeaad3b435b51404ee:5835048ce94ad0564e29a924a03510ef:::"] := by
  decide

/-- C5 counterexample: the extractor never lowercases.  Its regexes
accept lowercase hex only, so a 32-hex line in uppercase is dropped
entirely instead of being canonicalised: two inputs differing only in
letter case do NOT yield one canonical hash — the uppercase one yields
nothing. -/
theorem uppercase_hash_dropped_counterexample :
    extract_nt_hashes ["5835048CE94AD0564E29A924A03510EF"] = [] ∧
    extract_nt_hashes ["5835048ce94ad0564e29a924a03510ef"]
      = ["5835048ce94ad0564e29a924a03510ef"] := by
  decide

/-- C5 amended: the extractor records hashes exactly as they appear,
accepting only fields/lines that are already 32 lowercase hex characters
(uppercase variants are dropped, not normalised); consequently every
canonical hash in the extracted set matches `^[0-9a-f]{32}$`, and
non-conforming lines are dropped, not retained. -/
theorem extracted_hashes_lowercase_hex (lines : List String) (h : String)
    (hmem : h ∈ extract_nt_hashes lines) :
    h.data.length = 32 ∧ h.data.all isHexLowerChar := by
  rw [extract_nt_hashes, List.mem_insertionSort, mem_extractHashes] at hmem
  obtain ⟨line, _, hsome⟩ := hmem
  unfold lineHash at hsome
  exact strippedHash_shape hsome

/-- Witness for the amended C5 at a concrete one-line input. -/
theorem extracted_hashes_lowercase_hex_witness :
    "5835048ce94ad0564e29a924a03510ef" ∈ extract_nt_hashes ["5835048ce94ad0564e29a924a03510ef"] ∧
    (("5835048ce94ad0564e29a924a03510ef" : String).data.length = 32 ∧
      ("5835048ce94ad0564e29a924a03510ef" : String).data.all isHexLowerChar) :=
  ⟨by decide,
   extracted_hashes_lowercase_hex ["5835048ce94ad0564e29a924a03510ef"] _ (by decide)⟩

/-- C7: the extracted hash set is invariant under duplicating an input
line, under repeating the same hash on several lines (any line whose
contributed hash coincides with an earlier line's adds nothing), and
under whitespace padding of a line; the empty input yields the empty
set without error. -/
theorem extraction_invariance :
    (∀ (pre post : List String) (x : String),
        extract_nt_hashes (pre ++ x :: x :: post) = extract_nt_hashes (pre ++ x :: post)) ∧
    (∀ (pre post : List String) (x y : String), lineHash y = lineHash x →
        extract_nt_hashes (pre ++ x :: y :: post) = extract_nt_hashes (pre ++ x :: post)) ∧
    (∀ (pre post : List String) (x pad1 pad2 : List Char),
        pad1.all isPySpace → pad2.all isPySpace →
        extract_nt_hashes (pre ++ String.mk (pad1 ++ x ++ pad2) :: post)
          = extract_nt_hashes (pre ++ String.mk x :: post)) ∧
    extract_nt_hashes [] = [] := by
  refine ⟨?_, ?_, ?_, rfl⟩
  · intro pre post x
    unfold extract_nt_hashes
    rw [extractHashes_dup pre post x x rfl]
  · intro pre post x y h
    unfold extract_nt_hashes
    rw [extractHashes_dup pre post x y h]
  · intro pre post x pad1 pad2 h1 h2
    unfold extract_nt_hashes
    rw [extractHashes_congr_line pre post _ _ (lineHash_pad x pad1 pad2 h1 h2)]

/-- Witness for C7: a duplicated line and a whitespace-padded line at
concrete inputs. -/
theorem extraction_invariance_witness :
    extract_nt_hashes ([] ++ "5835048ce94ad0564e29a924a03510ef" ::
        "5835048ce94ad0564e29a924a03510ef" :: [])
      = extract_nt_hashes ([] ++ "5835048ce94ad0564e29a924a03510ef" :: []) ∧
    extract_nt_hashes
        ([] ++ String.mk ([' '] ++ "5835048ce94ad0564e29a924a03510ef".data ++ ['\t']) :: [])
      = extract_nt_hashes ([] ++ String.mk "5835048ce94ad0564e29a924a03510ef".data :: []) :=
  ⟨extraction_invariance.1 [] [] _,
   extraction_invariance.2.2.1 [] [] _ [' '] ['\t'] (by decide) (by decide)⟩

/-- C10: the extractor's output sequence is lexicographically sorted,
and any two input files yielding the same hash set produce the identical
ordered output sequence. -/
theorem sorted_deterministic_output :
    (∀ lines : List String, (extract_nt_hashes lines).Sorted (· ≤ ·)) ∧
    (∀ l1 l2 : List String, (extractHashes l1).toFinset = (extractHashes l2).toFinset →
        extract_nt_hashes l1 = extract_nt_hashes l2) := by
  constructor
  · intro lines
    exact List.sorted_insertionSort _ _
  · intro l1 l2 hset
    have hmem : ∀ a : String, a ∈ extractHashes l1 ↔ a ∈ extractHashes l2 := by
      intro a
      rw [← List.mem_toFinset, ← List.mem_toFinset, hset]
    have hperm : List.Perm (extractHashes l1) (extractHashes l2) :=
      (List.perm_ext_iff_of_nodup (nodup_extractHashes l1) (nodup_extractHashes l2)).mpr hmem
    unfold extract_nt_hashes
    exact List.eq_of_perm_of_sorted
      (((List.perm_insertionSort _ _).trans hperm).trans (List.perm_insertionSort _ _).symm)
      (List.sorted_insertionSort _ _) (List.sorted_insertionSort _ _)

/-- Witness for C10: two concrete inputs holding the same two hashes in
opposite orders produce the identical output sequence. -/
theorem sorted_deterministic_output_witness :
    extract_nt_hashes ["aad3b435b51404eeaad3b435b51404ee", "5835048ce94ad0564e29a924a03510ef"]
      = extract_nt_hashes ["5835048ce94ad0564e29a924a03510ef", "aad3b435b51404eeaad3b435b51404ee"] :=
  sorted_deterministic_output.2 _ _ (by decide)

/-! ### Lookup client and retry-driver claims -/

/-- C8: `single_lookup` maps each response to exactly one outcome —
204 emits the single `hash:[not found]` line; 200 emits each line of
the (stripped) response body; any other status emits an error message
naming the status code; a transport failure emits a transport-error
message.  The four cases are exhaustive and mutually exclusive (the
function is total, so no exception escapes). -/
theorem single_lookup_outcome_cases :
    (∀ (h body : String),
        single_lookup h (Resp.ok 204 body) = [Emission.out (h ++ ":[not found]")]) ∧
    (∀ (h body : String),
        single_lookup h (Resp.ok 200 body) = (bodyLines body).map Emission.out) ∧
    (∀ (h : String) (status : Nat) (body : String), status ≠ 200 → status ≠ 204 →
        single_lookup h (Resp.ok status body)
          = [Emission.err ("Error: Unexpected status code " ++ toString status)]) ∧
    (∀ (h e : String),
        single_lookup h (Resp.netErr e)
          = [Emission.err ("Error during single lookup: " ++ e)]) := by
  refine ⟨fun h body => rfl, fun h body => rfl, ?_, fun h e => rfl⟩
  intro h status body h200 h204
  simp only [single_lookup]
  rw [if_neg h204, if_neg h200]

/-- Witness for C8 at the concrete status 500. -/
theorem single_lookup_outcome_cases_witness :
    single_lookup "aa" (Resp.ok 500 "x")
      = [Emission.err ("Error: Unexpected status code " ++ toString (500 : Nat))] :=
  single_lookup_outcome_cases.2.2.1 "aa" 500 "x" (by decide) (by decide)

/-- C1 amended: on HTTP 200 the bulk driver emits exactly the lines of
the response body as outcome lines — one emission per body line — and
advances the cursor by one batch.  It performs no `[not found]`
backfill, so hashes of the batch that are absent from the response body
get no outcome line at all. -/
theorem bulk_success_emits_body_lines (s : DriverState) (body : String) :
    bulkStep s (Resp.ok 200 body)
      = ⟨s.i + 300, s.output ++ (bodyLines body).map Emission.out⟩ := rfl

/-- C1 counterexample: a batch of two hashes whose 200 response body
names only the first hash yields exactly one outcome line — fewer lines
than hashes, and no explicit `hash:[not found]` line for the absent
hash, contradicting the claimed one-outcome-line-per-hash property. -/
theorem bulk_success_no_backfill_counterexample :
    (currentBatch ["aaaaaaaaaaaaaaaaaaaaaaaaaaaaaaaa", "bbbbbbbbbbbbbbbbbbbbbbbbbbbbbbbb"] 0).length
        = 2 ∧
    (bulkStep ⟨0, []⟩ (Resp.ok 200 "aaaaaaaaaaaaaaaaaaaaaaaaaaaaaaaa:Summer2024!")).output
      = [Emission.out "aaaaaaaaaaaaaaaaaaaaaaaaaaaaaaaa:Summer2024!"] ∧
    Emission.out "bbbbbbbbbbbbbbbbbbbbbbbbbbbbbbbb:[not found]" ∉
      (bulkStep ⟨0, []⟩ (Resp.ok 200 "aaaaaaaaaaaaaaaaaaaaaaaaaaaaaaaa:Summer2024!")).output := by
  decide

/-- C2: any run of consecutive 429 responses leaves the batch cursor
unchanged and appends exactly one rate-limit warning per response —
no outcome (`out`) lines are emitted, and the output already
accumulated from earlier batches is preserved as an unmodified prefix,
never re-emitted. -/
theorem throttle_never_advances (n : Nat) :
    ∀ (rs : List Resp) (s : DriverState),
      (∀ r ∈ rs, ∃ body, r = Resp.ok 429 body) → s.i < n →
      bulkRun n s rs
        = ⟨s.i, s.output ++ List.replicate rs.length (Emission.err rateLimitMsg)⟩ := by
  intro rs
  induction rs with
  | nil => intro s hall hi; simp [bulkRun]
  | cons r rest ih =>
    intro s hall hi
    obtain ⟨body, rfl⟩ := hall _ (List.mem_cons_self r rest)
    rw [bulkRun, if_pos hi]
    have hstep : bulkStep s (Resp.ok 429 body)
        = ⟨s.i, s.output ++ [Emission.err rateLimitMsg]⟩ := rfl
    rw [hstep, ih ⟨s.i, s.output ++ [Emission.err rateLimitMsg]⟩
      (fun r hr => hall r (List.mem_cons_of_mem _ hr)) hi]
    simp [List.replicate_succ]

/-- Witness for C2: two consecutive 429 responses at cursor 0 of a
one-hash run. -/
theorem throttle_never_advances_witness :
    bulkRun 1 ⟨0, []⟩ [Resp.ok 429 "", Resp.ok 429 ""]
      = ⟨0, [] ++ List.replicate 2 (Emission.err rateLimitMsg)⟩ :=
  throttle_never_advances 1 [Resp.ok 429 "", Resp.ok 429 ""] ⟨0, []⟩
    (by
      intro r hr
      cases hr with
      | head => exact ⟨"", rfl⟩
      | tail _ hr2 =>
        cases hr2 with
        | head => exact ⟨"", rfl⟩
        | tail _ hr3 => cases hr3)
    (by decide)

/-- C3: on any status other than 200 and 429, and on any transport
error, the bulk driver emits exactly one error message and advances the
cursor by one batch (300); the loop then continues with the next batch
rather than aborting. -/
theorem non_throttle_error_advances :
    (∀ (s : DriverState) (status : Nat) (body : String), status ≠ 200 → status ≠ 429 →
        bulkStep s (Resp.ok status body)
          = ⟨s.i + 300, s.output ++ [Emission.err (statusErrMsg status)]⟩) ∧
    (∀ (s : DriverState) (e : String),
        bulkStep s (Resp.netErr e)
          = ⟨s.i + 300, s.output ++ [Emission.err (transportErrMsg e)]⟩) ∧
    (∀ (n : Nat) (s : DriverState) (r : Resp) (rs : List Resp), s.i < n →
        bulkRun n s (r :: rs) = bulkRun n (bulkStep s r) rs) := by
  refine ⟨?_, fun s e => rfl, ?_⟩
  · intro s status body h200 h429
    simp only [bulkStep]
    rw [if_neg h200, if_neg h429]
  · intro n s r rs hi
    rw [bulkRun, if_pos hi]

/-- Witness for C3 at the concrete status 500 and a concrete transport
error. -/
theorem non_throttle_error_advances_witness :
    bulkStep ⟨0, []⟩ (Resp.ok 500 "x")
      = ⟨0 + 300, [] ++ [Emission.err (statusErrMsg 500)]⟩ ∧
    bulkRun 1 ⟨0, []⟩ [Resp.netErr "boom"]
      = bulkRun 1 (bulkStep ⟨0, []⟩ (Resp.netErr "boom")) [] :=
  ⟨non_throttle_error_advances.1 ⟨0, []⟩ 500 "x" (by decide) (by decide),
   non_throttle_error_advances.2.2 1 ⟨0, []⟩ (Resp.netErr "boom") [] (by decide)⟩

end LookHash
